import Mathlib

/-!
# Verification of the cloudflare-speed measurement pipeline

Shallow embedding of the Go sources of `coleaeason/cloudflare-speed`:
the statistics helpers (`Average`, `Median`, `Jitter`, `Quartile`), the
timed-request data (`requestTiming`, Server-Timing header parsing), the
measurement phases (`measureLatency`, `measureDownload`, `measureUpload`)
and the `/cdn-cgi/trace` payload parsing (`fetchCfCdnCgiTrace`).

Float64 values are idealized as exact rationals; where the code can divide
by an exactly-zero denominator the IEEE-754 outcome class is kept explicit
(`GoFloat`).  Strings are modelled as `List Char`.  The transport layer is
external: a phase takes the list of per-iteration transport outcomes
(`none` = request error) as input.
-/

namespace CloudflareSpeed

/-- Model of Go `sort.Float64s` applied to a copy: the ascending sort of the
list (insertion sort; every comparison sort returns the same, unique sorted
permutation). -/
def sortQ (values : List ℚ) : List ℚ :=
  values.insertionSort (· ≤ ·)

/-- Go `Average` (internal/math, duplicated as `average` in main): running
sum over the slice divided by its length, `0` on empty input. -/
def Average (values : List ℚ) : ℚ :=
  if values = [] then 0
  else values.foldl (· + ·) 0 / (values.length : ℚ)

/-- Go `Median`: sort a copy ascending, take the middle element for odd
length, the mean of the two middle elements for even length, `0` on empty
input. -/
def Median (values : List ℚ) : ℚ :=
  if values = [] then 0
  else
    let sorted := sortQ values
    let mid := sorted.length / 2
    if sorted.length % 2 = 0 then (sorted.getD (mid - 1) 0 + sorted.getD mid 0) / 2
    else sorted.getD mid 0

/-- Go `Jitter`: sum of squared deviations from the mean divided by
`len(values) - 1`; `0` when the length is at most one. -/
def Jitter (values : List ℚ) : ℚ :=
  if values.length ≤ 1 then 0
  else
    let avg := Average values
    values.foldl (fun s v => s + (v - avg) * (v - avg)) 0 / ((values.length : ℚ) - 1)

/-- Truncation toward zero, modelling the Go conversions `int(x)` and
`int64(x)` from a float64 value. -/
def ratTrunc (x : ℚ) : ℤ :=
  if 0 ≤ x then ⌊x⌋ else -⌊-x⌋

/-- Go `Quartile`: sort a copy ascending, pick the element at position
`int(float64(len) * q)`, clamped above to `len - 1`.  Go panics on a
negative index; that branch, reachable only for `q < 0`, is represented by
the junk value `0` through `Int.toNat`/`getD`. -/
def Quartile (values : List ℚ) (q : ℚ) : ℚ :=
  if values = [] then 0
  else
    let sorted := sortQ values
    let pos : ℤ := ratTrunc ((sorted.length : ℚ) * q)
    let pos2 := if (sorted.length : ℤ) ≤ pos then (sorted.length : ℤ) - 1 else pos
    sorted.getD pos2.toNat 0

/-- Outcome class of a float64 quotient with exact operands: a finite value
(idealized as an exact rational), an infinity, or NaN. -/
inductive GoFloat where
  | fin : ℚ → GoFloat
  | posInf : GoFloat
  | negInf : GoFloat
  | nan : GoFloat
deriving DecidableEq

/-- IEEE-754 float64 division on exact operands: a zero denominator gives a
signed infinity (or NaN for 0/0); nonzero denominators give the exact
quotient (rounding idealized away). -/
def fdiv (x y : ℚ) : GoFloat :=
  if y = 0 then
    if 0 < x then .posInf else if x < 0 then .negInf else .nan
  else .fin (x / y)

/-- Go struct `requestTiming`: lifecycle timestamps, kept as integer
nanosecond counts (the resolution of `time.Time`/`time.Duration`), and the
parsed `Server-Timing` duration in milliseconds. -/
structure requestTiming where
  started : ℤ
  dnsLookup : ℤ
  tcpHandshake : ℤ
  sslHandshake : ℤ
  ttfb : ℤ
  ended : ℤ
  serverTiming : ℚ
deriving DecidableEq

/-- Go `measureSpeed(bytes, duration)`:
`float64(bytes*8) / (duration.Seconds() * 1e6)`, with the IEEE outcome of
the division kept explicit. -/
def measureSpeed (bytes : ℤ) (durSeconds : ℚ) : GoFloat :=
  fdiv ((bytes * 8 : ℤ) : ℚ) (durSeconds * 1000000)

/-- Go `time.Duration(ms * float64(time.Millisecond))`: milliseconds to an
int64 nanosecond count; the float-to-integer conversion truncates toward
zero. -/
def goDurationOfMs (ms : ℚ) : ℤ :=
  ratTrunc (ms * 1000000)

/-- Go `Duration.Seconds()`, exact over the rationals. -/
def durationSeconds (d : ℤ) : ℚ :=
  (d : ℚ) / 1000000000

/-- The latency sample of one successful `measureLatency` iteration:
`timing.ttfb.Sub(timing.started).Seconds()*1000 - timing.serverTiming`. -/
def latencySample (t : requestTiming) : ℚ :=
  ((t.ttfb - t.started : ℤ) : ℚ) / 1000000000 * 1000 - t.serverTiming

/-- The download sample of one successful `measureDownload` iteration:
`measureSpeed(bytes, timing.ended.Sub(timing.ttfb))`. -/
def downloadSample (bytes : ℤ) (t : requestTiming) : GoFloat :=
  measureSpeed bytes (durationSeconds (t.ended - t.ttfb))

/-- The upload sample of one successful `measureUpload` iteration: the
denominator is the server-reported duration
`time.Duration(timing.serverTiming * float64(time.Millisecond))`, not the
wall-clock transfer time. -/
def uploadSample (bytes : ℤ) (t : requestTiming) : GoFloat :=
  measureSpeed bytes (durationSeconds (goDurationOfMs t.serverTiming))

/-- Go `measureDownload(bytes, iterations)`: `outcomes` holds one entry per
iteration, `none` when the transport call returned an error (which the code
logs and skips with `continue`).  Returns the accumulated samples and the
returned error value, which is always `nil`. -/
def measureDownload (bytes : ℤ) (outcomes : List (Option requestTiming)) :
    List GoFloat × Option String :=
  (outcomes.filterMap (fun o => o.map (downloadSample bytes)), none)

/-- Go `measureUpload(bytes, iterations)`, same shape as `measureDownload`
but with the server-reported duration as denominator. -/
def measureUpload (bytes : ℤ) (outcomes : List (Option requestTiming)) :
    List GoFloat × Option String :=
  (outcomes.filterMap (fun o => o.map (uploadSample bytes)), none)

/-- Go `measureLatency()`, over the 20 per-iteration transport outcomes.
After the loop the code reads `measurements[0]` unconditionally to seed the
min/max scan; on an empty slice that indexing panics with an
index-out-of-range runtime error, modelled here by the `none` result.
Otherwise the result is `[min, max, average, median, jitter]` together with
the returned error value, which is always `nil`. -/
def measureLatency (outcomes : List (Option requestTiming)) :
    Option (List ℚ × Option String) :=
  let measurements := outcomes.filterMap (fun o => o.map latencySample)
  match measurements with
  | [] => none
  | m0 :: _ =>
    some ([measurements.foldl min m0, measurements.foldl max m0,
           Average measurements, Median measurements, Jitter measurements], none)

/-! ## Frame claim: median and quartile do not mutate the caller's slice

Go slices alias a backing array, so an in-place `sort.Float64s` on the
caller's slice would be observable.  The heap of allocated float64 slices
is modelled explicitly: a slice handle is its index into the heap, and
`Median`/`Quartile` are replayed against the heap with one heap operation
per slice operation of the source. -/

def readSlice (st : List (List ℚ)) (i : Nat) : List ℚ :=
  st.getD i []

def writeSlice (st : List (List ℚ)) (i : Nat) (v : List ℚ) : List (List ℚ) :=
  st.set i v

/-- `make([]float64, ...)`: a fresh slice at the end of the heap. -/
def allocSlice (st : List (List ℚ)) (v : List ℚ)  : List (List ℚ) × Nat :=
  (st ++ [v], st.length)

/-- Go `Median` replayed against the slice heap:
`sorted := make([]float64, len(values))`, `copy(sorted, values)`, in-place
`sort.Float64s(sorted)`, then reads of `sorted` only.  Returns the result
and the final heap. -/
def medianGo (st : List (List ℚ)) (values : Nat) : ℚ × List (List ℚ) :=
  if readSlice st values = [] then (0, st)
  else
    let a := allocSlice st (List.replicate (readSlice st values).length 0)
    let st1 := a.1
    let sorted := a.2
    let st2 := writeSlice st1 sorted (readSlice st1 values)
    let st3 := writeSlice st2 sorted (sortQ (readSlice st2 sorted))
    let s := readSlice st3 sorted
    let mid := s.length / 2
    (if s.length % 2 = 0 then (s.getD (mid - 1) 0 + s.getD mid 0) / 2 else s.getD mid 0, st3)

/-- Go `Quartile` replayed against the slice heap, same copy-then-sort
shape as `medianGo`. -/
def quartileGo (st : List (List ℚ)) (values : Nat) (q : ℚ) : ℚ × List (List ℚ) :=
  if readSlice st values = [] then (0, st)
  else
    let a := allocSlice st (List.replicate (readSlice st values).length 0)
    let st1 := a.1
    let sorted := a.2
    let st2 := writeSlice st1 sorted (readSlice st1 values)
    let st3 := writeSlice st2 sorted (sortQ (readSlice st2 sorted))
    let s := readSlice st3 sorted
    let pos : ℤ := ratTrunc ((s.length : ℚ) * q)
    let pos2 := if (s.length : ℤ) ≤ pos then (s.length : ℤ) - 1 else pos
    (s.getD pos2.toNat 0, st3)

/-! ## String parsing: Server-Timing header and the cdn-cgi trace payload

Strings are modelled as `List Char`.  `splitChar` models Go
`strings.Split` with a one-character separator (`";"`, `"="`, `"\n"`). -/

/-- Go `strings.Split(s, sep)` for a one-character separator: the fields
around each occurrence of `sep`; splitting the empty string gives `[""]`. -/
def splitChar (sep : Char) : List Char → List (List Char)
  | [] => [[]]
  | c :: s =>
    let rest := splitChar sep s
    if c = sep then [] :: rest
    else
      match rest with
      | h :: t => (c :: h) :: t
      | [] => [[c]]

/-- The whitespace set of Go `strings.TrimSpace` (its ASCII part; the
header fields at issue contain no non-ASCII spacing). -/
def isSpaceGo (c : Char) : Bool :=
  c = ' ' || c = '\t' || c = '\n' || c = '\r' || c.toNat = 11 || c.toNat = 12

/-- Go `strings.TrimSpace`: drop leading and trailing whitespace. -/
def trimSpace (s : List Char) : List Char :=
  ((s.dropWhile isSpaceGo).reverse.dropWhile isSpaceGo).reverse

def isDigitList (s : List Char) : Bool :=
  !s.isEmpty && s.all (·.isDigit)

def natOfDigits (s : List Char) : Nat :=
  s.foldl (fun a c => a * 10 + (c.toNat - 48)) 0

/-- Mantissa of a decimal float literal: `digits`, `digits.digits`,
`digits.` or `.digits`. -/
def parseMantissa (s : List Char) : Option ℚ :=
  match splitChar '.' s with
  | [ip] => if isDigitList ip then some ((natOfDigits ip : ℚ)) else none
  | [ip, fp] =>
    if (ip.all (·.isDigit) && fp.all (·.isDigit)) && (!ip.isEmpty || !fp.isEmpty) then
      some ((natOfDigits ip : ℚ) + (natOfDigits fp : ℚ) / (10 : ℚ) ^ fp.length)
    else none
  | _ => none

def parseSignedInt (s : List Char) : Option ℤ :=
  match s with
  | '+' :: r => if isDigitList r then some ((natOfDigits r : ℤ)) else none
  | '-' :: r => if isDigitList r then some (-(natOfDigits r : ℤ)) else none
  | r => if isDigitList r then some ((natOfDigits r : ℤ)) else none

/-- Model of Go `strconv.ParseFloat` restricted to finite decimal literals
(optional sign, decimal mantissa, optional `e`/`E` exponent), the parsed
value taken exactly as a rational; other inputs fail. -/
def parseGoFloat (s : List Char) : Option ℚ :=
  let sign : ℚ × List Char :=
    match s with
    | '+' :: r => (1, r)
    | '-' :: r => (-1, r)
    | r => (1, r)
  match splitChar 'e' (sign.2.map fun c => if c = 'E' then 'e' else c) with
  | [m] => (parseMantissa m).map (fun x => sign.1 * x)
  | [m, ex] =>
    match parseMantissa m, parseSignedInt ex with
    | some mv, some e => some (sign.1 * mv * (10 : ℚ) ^ e)
    | _, _ => none
  | _ => none

/-- The Server-Timing parsing step at the end of Go `request`:
`resp.Header.Get("Server-Timing")` is the argument (`""`, i.e. `[]`, when
the header is absent); the field value is split on `";"`, the second field
is trimmed, and on a `dur=` head the remainder is parsed as a float into
`timing.serverTiming`; every failure leaves the value at 0. -/
def serverTimingOfHeader (header : List Char) : ℚ :=
  if header = [] then 0
  else
    let parts := splitChar ';' header
    if 1 < parts.length then
      match trimSpace (parts.getD 1 []) with
      | 'd' :: 'u' :: 'r' :: '=' :: rest => (parseGoFloat rest).getD 0
      | _ => 0
    else 0

/-- The key/value pair a single trace line contributes, when splitting it
on `=` gives exactly two fields. -/
def lineKV (line : List Char) : Option (List Char × List Char) :=
  match splitChar '=' line with
  | [k, v] => some (k, v)
  | _ => none

/-- Go map assignment `result[k] = v` on a map modelled as a lookup
function. -/
def mapInsert (m : List Char → Option (List Char)) (kv : List Char × List Char) :
    List Char → Option (List Char) :=
  fun key => if key = kv.1 then some kv.2 else m key

/-- The parsing loop of Go `fetchCfCdnCgiTrace`: split the payload on
newlines, and for each line whose split on `=` has exactly two fields
assign `result[parts[0]] = parts[1]`; other lines are skipped.  The
network fetch itself is external; the function takes the payload body. -/
def fetchCfCdnCgiTrace (data : List Char) : List Char → Option (List Char) :=
  (splitChar '\n' data).foldl
    (fun result line =>
      match splitChar '=' line with
      | [k, v] => fun key => if key = k then some v else result key
      | _ => result)
    fun _ => none

end CloudflareSpeed

namespace CloudflareSpeed

/-! ## Basic facts about the sort helper -/

theorem sortQ_perm (values : List ℚ) : (sortQ values).Perm values :=
  List.perm_insertionSort _ values

theorem sortQ_sorted (values : List ℚ) : (sortQ values).Sorted (· ≤ ·) :=
  List.sorted_insertionSort _ values

theorem sortQ_length (values : List ℚ) : (sortQ values).length = values.length :=
  List.length_insertionSort _ values

theorem sortQ_eq_of_perm_sorted {values s : List ℚ} (hp : s.Perm values)
    (hs : s.Sorted (· ≤ ·)) : sortQ values = s :=
  List.eq_of_perm_of_sorted ((sortQ_perm values).trans hp.symm) (sortQ_sorted values) hs

theorem sortQ_of_sorted {l : List ℚ} (h : l.Sorted (· ≤ ·)) : sortQ l = l :=
  h.insertionSort_eq

/-- Nearest-rank selection of `Quartile` against any sorted permutation of
the input. -/
theorem quartile_pick (values : List ℚ) (q : ℚ) (hne : values ≠ []) (hq : 0 ≤ q)
    (s : List ℚ) (hp : s.Perm values) (hs : s.Sorted (· ≤ ·)) :
    Quartile values q =
      s.getD (min (⌊(values.length : ℚ) * q⌋).toNat (values.length - 1)) 0 := by
  have hsq : sortQ values = s := sortQ_eq_of_perm_sorted hp hs
  have hlen : s.length = values.length := hp.length_eq
  have hpos : 0 < values.length := List.length_pos.mpr hne
  have hnq : (0 : ℚ) ≤ (values.length : ℚ) * q := mul_nonneg (by positivity) hq
  have hfl : 0 ≤ ⌊(values.length : ℚ) * q⌋ := Int.floor_nonneg.mpr hnq
  simp only [Quartile]
  rw [if_neg hne, hsq, hlen]
  have htr : ratTrunc ((values.length : ℚ) * q) = ⌊(values.length : ℚ) * q⌋ := by
    simp only [ratTrunc, if_pos hnq]
  rw [htr]
  congr 1
  by_cases hc : (values.length : ℤ) ≤ ⌊(values.length : ℚ) * q⌋
  · rw [if_pos hc]
    omega
  · rw [if_neg hc]
    omega

end CloudflareSpeed

namespace CloudflareSpeed

/-! ## Claims about the statistics module -/

/-- C8: each of the four statistics functions returns 0 on an empty sample
list, as a defined result rather than an error. -/
theorem stats_empty_input_zero :
    Average ([] : List ℚ) = 0 ∧ Median ([] : List ℚ) = 0 ∧
    Jitter ([] : List ℚ) = 0 ∧ ∀ q : ℚ, Quartile [] q = 0 := by
  refine ⟨rfl, rfl, rfl, fun q => rfl⟩

/-- C1 (code evaluated at the failing input): when every one of the 20
latency iterations fails at the transport level, the sample slice is empty
and `measureLatency` reads `measurements[0]` out of range — the run panics
(`none`) instead of computing statistics over the empty set. -/
theorem measureLatency_total_failure_panics :
    measureLatency (List.replicate 20 none) = none := by
  rfl

/-! ## Helper lemmas for the statistics claims -/

theorem foldl_add_map (f : ℚ → ℚ) :
    ∀ (l : List ℚ) (a : ℚ), l.foldl (fun s v => s + f v) a = a + (l.map f).sum
  | [], a => by simp
  | v :: l, a => by
    rw [List.foldl_cons, foldl_add_map f l (a + f v)]
    simp [add_assoc]

theorem average_eq_sum_div {values : List ℚ} (h : values ≠ []) :
    Average values = values.sum / (values.length : ℚ) := by
  simp only [Average]
  rw [if_neg h]
  have hf : values.foldl (· + ·) 0 = values.foldl (fun s v => s + id v) 0 := rfl
  rw [hf, foldl_add_map, List.map_id, zero_add]

/-- C6: jitter is the sample variance around the arithmetic mean with the
unbiased divisor n−1, and 0 when the list has at most one element;
`jitter [5,5,5] = 0` and `jitter [1,2,3] = 1`. -/
theorem jitter_sample_variance :
    (∀ values : List ℚ, values.length ≤ 1 → Jitter values = 0) ∧
    (∀ values : List ℚ, 2 ≤ values.length →
      Jitter values =
        (values.map (fun v => (v - values.sum / (values.length : ℚ)) ^ 2)).sum /
          ((values.length : ℚ) - 1)) ∧
    Jitter [5, 5, 5] = 0 ∧ Jitter [1, 2, 3] = 1 := by
  have ha5 : Average [5, 5, 5] = 5 := by
    rw [average_eq_sum_div (by decide)]
    norm_num
  have ha3 : Average [1, 2, 3] = 2 := by
    rw [average_eq_sum_div (by decide)]
    norm_num
  refine ⟨fun values h => by simp only [Jitter]; rw [if_pos h], fun values h => ?_,
    by norm_num [Jitter, ha5, List.foldl_cons, List.foldl_nil],
    by norm_num [Jitter, ha3, List.foldl_cons, List.foldl_nil]⟩
  have hne : values ≠ [] := by
    intro hcon
    rw [hcon] at h
    simp at h
  simp only [Jitter]
  rw [if_neg (by omega)]
  rw [foldl_add_map (fun v => (v - Average values) * (v - Average values)) values 0, zero_add]
  rw [average_eq_sum_div hne]
  simp only [← pow_two]

/-- C7: median sorts a copy ascending and returns the middle element for an
odd count and the mean of the two middle elements for an even count, with 0
on empty input; `median [1,2,3] = 2` and `median [1,2,3,4] = 5/2`. -/
theorem median_sorted_middle :
    Median ([] : List ℚ) = 0 ∧
    (∀ values s : List ℚ, s.Perm values → s.Sorted (· ≤ ·) →
      (values.length % 2 = 1 → Median values = s.getD (values.length / 2) 0) ∧
      (values ≠ [] → values.length % 2 = 0 →
        Median values =
          (s.getD (values.length / 2 - 1) 0 + s.getD (values.length / 2) 0) / 2)) ∧
    Median [1, 2, 3] = 2 ∧ Median [1, 2, 3, 4] = 5 / 2 := by
  refine ⟨rfl, fun values s hp hs => ?_, ?_, ?_⟩
  · have hsq : sortQ values = s := sortQ_eq_of_perm_sorted hp hs
    have hlen : s.length = values.length := hp.length_eq
    constructor
    · intro hodd
      have hne : values ≠ [] := by
        intro hcon
        rw [hcon] at hodd
        simp at hodd
      simp only [Median]
      rw [if_neg hne, hsq, hlen, if_neg (by omega)]
    · intro hne heven
      simp only [Median]
      rw [if_neg hne, hsq, hlen, if_pos heven]
  · simp only [Median]
    rw [if_neg (by decide), sortQ_of_sorted (by norm_num [List.sorted_cons])]
    norm_num [List.getD_cons_succ, List.getD_cons_zero]
  · simp only [Median]
    rw [if_neg (by decide), sortQ_of_sorted (by norm_num [List.sorted_cons])]
    norm_num [List.getD_cons_succ, List.getD_cons_zero]

/-- C2: for a non-empty list and a nonnegative quantile `q`, `quartile`
returns the element of the ascending sort at index `⌊n·q⌋` clamped to
`n−1` (nearest-rank, truncating); it returns 0 on empty input, and in
particular `quartile [1..10] 0.9 = 10` and `quartile [1,2] 1 = 2` (the
index 2 is clamped to 1, with no out-of-bounds access). -/
theorem quartile_nearest_rank_spec :
    (∀ q : ℚ, Quartile [] q = 0) ∧
    (∀ (values : List ℚ) (q : ℚ), values ≠ [] → 0 ≤ q →
      ∀ s : List ℚ, s.Perm values → s.Sorted (· ≤ ·) →
        Quartile values q =
          s.getD (min (⌊(values.length : ℚ) * q⌋).toNat (values.length - 1)) 0) ∧
    Quartile [1, 2, 3, 4, 5, 6, 7, 8, 9, 10] (9 / 10) = 10 ∧
    Quartile [1, 2] 1 = 2 := by
  refine ⟨fun q => rfl, quartile_pick, ?_, ?_⟩
  · have h := quartile_pick [1, 2, 3, 4, 5, 6, 7, 8, 9, 10] (9 / 10) (by decide)
      (by norm_num) [1, 2, 3, 4, 5, 6, 7, 8, 9, 10] (List.Perm.refl _)
      (by norm_num [List.sorted_cons])
    rw [h, show ((([1, 2, 3, 4, 5, 6, 7, 8, 9, 10] : List ℚ).length : ℚ) * (9 / 10))
        = ((9 : ℤ) : ℚ) by norm_num, Int.floor_intCast]
    rfl
  · have h := quartile_pick [1, 2] 1 (by decide) (by norm_num) [1, 2]
      (List.Perm.refl _) (by norm_num [List.sorted_cons])
    rw [h, show ((([1, 2] : List ℚ).length : ℚ) * 1) = ((2 : ℤ) : ℚ) by norm_num,
      Int.floor_intCast]
    rfl

/-- Witness for C6's conditional conjuncts at `[7]` and `[1, 2, 3]`. -/
theorem jitter_sample_variance_witness :
    Jitter [7] = 0 ∧
    Jitter [1, 2, 3]
      = (([1, 2, 3] : List ℚ).map
          (fun v => (v - ([1, 2, 3] : List ℚ).sum / (([1, 2, 3] : List ℚ).length : ℚ)) ^ 2)).sum /
          ((([1, 2, 3] : List ℚ).length : ℚ) - 1) :=
  ⟨jitter_sample_variance.1 [7] (by decide),
   jitter_sample_variance.2.1 [1, 2, 3] (by decide)⟩

/-- Witness for C7's conditional conjuncts: the odd case at `[3, 1, 2]`
and the even case at `[2, 1]`, each against its sorted permutation. -/
theorem median_sorted_middle_witness :
    Median [3, 1, 2] = ([1, 2, 3] : List ℚ).getD (([3, 1, 2] : List ℚ).length / 2) 0 ∧
    Median [2, 1] = (([1, 2] : List ℚ).getD (([2, 1] : List ℚ).length / 2 - 1) 0
      + ([1, 2] : List ℚ).getD (([2, 1] : List ℚ).length / 2) 0) / 2 :=
  ⟨(median_sorted_middle.2.1 [3, 1, 2] [1, 2, 3] (by decide) (by decide)).1 (by decide),
   (median_sorted_middle.2.1 [2, 1] [1, 2] (by decide) (by decide)).2 (by decide) (by decide)⟩

/-- Witness for C2's conditional conjunct at `[2, 1]` with `q = 1`. -/
theorem quartile_nearest_rank_spec_witness :
    Quartile [2, 1] 1
      = ([1, 2] : List ℚ).getD
          (min (⌊(([2, 1] : List ℚ).length : ℚ) * 1⌋).toNat
            (([2, 1] : List ℚ).length - 1)) 0 :=
  quartile_nearest_rank_spec.2.1 [2, 1] 1 (by decide) (by decide) [1, 2]
    (by decide) (by decide)

/-! ## Claims about the measurement phases -/

theorem filterMap_map_length (f : requestTiming → GoFloat)
    (outcomes : List (Option requestTiming)) :
    (outcomes.filterMap (fun o => o.map f)).length
      = outcomes.length - outcomes.countP (fun o => o.isNone) := by
  induction outcomes with
  | nil => rfl
  | cons o rest ih =>
    have hle : rest.countP (fun o => o.isNone) ≤ rest.length := List.countP_le_length _
    cases o with
    | none => simp [List.filterMap_cons, List.countP_cons, ih]
    | some t =>
      simp [List.filterMap_cons, List.countP_cons, ih]
      omega

/-- C4: a phase of N configured iterations of which K fail at the transport
level returns exactly N−K samples, in iteration order (the successful
iterations' samples, in order); the returned error is always `nil` (no
failure propagates past the phase boundary) and the sample count never
exceeds N. -/
theorem phase_failure_sample_count (bytes : ℤ) (outcomes : List (Option requestTiming)) :
    (measureDownload bytes outcomes).2 = none ∧
    (measureUpload bytes outcomes).2 = none ∧
    (measureDownload bytes outcomes).1.length
      = outcomes.length - outcomes.countP (fun o => o.isNone) ∧
    (measureUpload bytes outcomes).1.length
      = outcomes.length - outcomes.countP (fun o => o.isNone) ∧
    (measureDownload bytes outcomes).1.length ≤ outcomes.length ∧
    (measureUpload bytes outcomes).1.length ≤ outcomes.length ∧
    (measureDownload bytes outcomes).1
      = (outcomes.filterMap id).map (downloadSample bytes) ∧
    (measureUpload bytes outcomes).1
      = (outcomes.filterMap id).map (uploadSample bytes) := by
  refine ⟨rfl, rfl, filterMap_map_length _ outcomes, filterMap_map_length _ outcomes,
    ?_, ?_, ?_, ?_⟩
  · exact le_trans (le_of_eq (filterMap_map_length (downloadSample bytes) outcomes))
      (Nat.sub_le _ _)
  · exact le_trans (le_of_eq (filterMap_map_length (uploadSample bytes) outcomes))
      (Nat.sub_le _ _)
  · rw [measureDownload, List.map_filterMap]
    rfl
  · rw [measureUpload, List.map_filterMap]
    rfl

/-- C3: in the upload phase, a successful request whose parsed
`Server-Timing` duration is still 0 produces an unguarded division of
`bits(payloadSize)` by a zero-second duration: the sample is IEEE +Inf and
it is appended to the sample list the phase returns (which `speedTest`
pools into the 90th-percentile upload figure). -/
theorem upload_zero_server_timing_inf (bytes : ℤ) (outcomes : List (Option requestTiming))
    (t : requestTiming) (hmem : some t ∈ outcomes) (hst : t.serverTiming = 0)
    (hb : 0 < bytes) :
    uploadSample bytes t = GoFloat.posInf ∧
    GoFloat.posInf ∈ (measureUpload bytes outcomes).1 := by
  have hsample : uploadSample bytes t = GoFloat.posInf := by
    have h0 : durationSeconds (goDurationOfMs t.serverTiming) = 0 := by
      rw [hst]
      simp [goDurationOfMs, ratTrunc, durationSeconds]
    simp only [uploadSample, h0, measureSpeed, zero_mul, fdiv]
    rw [if_pos trivial, if_pos (Int.cast_pos.mpr (mul_pos hb (by norm_num)))]
  refine ⟨hsample, ?_⟩
  rw [measureUpload]
  exact List.mem_filterMap.mpr ⟨some t, hmem, by simp [hsample]⟩

/-- Witness for C3 at a concrete input: a single successful 11000-byte
upload iteration whose request timing carries `serverTiming = 0`. -/
theorem upload_zero_server_timing_inf_witness :
    uploadSample 11000 ⟨0, 0, 0, 0, 0, 0, 0⟩ = GoFloat.posInf ∧
    GoFloat.posInf ∈ (measureUpload 11000 [some ⟨0, 0, 0, 0, 0, 0, 0⟩]).1 :=
  upload_zero_server_timing_inf 11000 [some ⟨0, 0, 0, 0, 0, 0, 0⟩]
    ⟨0, 0, 0, 0, 0, 0, 0⟩ (List.mem_singleton.mpr rfl) rfl (by norm_num)


theorem getD_set_ne (v : List ℚ) :
    ∀ (l : List (List ℚ)) (i j : Nat), i ≠ j → (l.set i v).getD j [] = l.getD j []
  | [], _, _, _ => by simp
  | x :: l, 0, 0, h => absurd rfl h
  | x :: l, 0, j + 1, _ => by
    show (v :: l).getD (j + 1) [] = (x :: l).getD (j + 1) []
    rw [List.getD_cons_succ, List.getD_cons_succ]
  | x :: l, i + 1, 0, _ => by
    show (x :: l.set i v).getD 0 [] = (x :: l).getD 0 []
    rfl
  | x :: l, i + 1, j + 1, h => by
    show (x :: l.set i v).getD (j + 1) [] = (x :: l).getD (j + 1) []
    rw [List.getD_cons_succ, List.getD_cons_succ]
    exact getD_set_ne v l i j (by omega)

theorem getD_set_self (v : List ℚ) :
    ∀ (l : List (List ℚ)) (i : Nat), i < l.length → (l.set i v).getD i [] = v
  | [], _, h => absurd h (by simp)
  | x :: l, 0, _ => rfl
  | x :: l, i + 1, h => by
    show (x :: l.set i v).getD (i + 1) [] = v
    rw [List.getD_cons_succ]
    exact getD_set_self v l i (by simpa using h)

theorem alloc_read (st : List (List ℚ)) {i : Nat} (hi : i < st.length) (r : List ℚ) :
    readSlice (st ++ [r]) i = readSlice st i := by
  simp only [readSlice]
  exact List.getD_append _ _ _ _ hi

theorem copy_read (st : List (List ℚ)) (r v : List ℚ) :
    readSlice (writeSlice (st ++ [r]) st.length v) st.length = v := by
  simp only [readSlice, writeSlice]
  apply getD_set_self
  simp

theorem sort_read (st : List (List ℚ)) (r v w : List ℚ) :
    readSlice (writeSlice (writeSlice (st ++ [r]) st.length v) st.length w) st.length
      = w := by
  simp only [readSlice, writeSlice]
  apply getD_set_self
  simp

theorem frame_read (st : List (List ℚ)) {i : Nat} (hi : i < st.length) (r v w : List ℚ) :
    readSlice (writeSlice (writeSlice (st ++ [r]) st.length v) st.length w) i
      = readSlice st i := by
  simp only [readSlice, writeSlice]
  rw [getD_set_ne _ _ _ _ (by omega), getD_set_ne _ _ _ _ (by omega)]
  exact List.getD_append _ _ _ _ hi

/-- C9: `median` and `quartile` leave the caller's slice unchanged — the
sort happens on a freshly allocated copy — and the value they return is
the one computed by the pure `Median`/`Quartile` on the caller's
(unchanged) content. -/
theorem median_quartile_preserve_caller (st : List (List ℚ)) (i : Nat) (q : ℚ)
    (hi : i < st.length) :
    readSlice (medianGo st i).2 i = readSlice st i ∧
    readSlice (quartileGo st i q).2 i = readSlice st i ∧
    (medianGo st i).1 = Median (readSlice st i) ∧
    (quartileGo st i q).1 = Quartile (readSlice st i) q := by
  by_cases h : readSlice st i = []
  · refine ⟨?_, ?_, ?_, ?_⟩
    · simp only [medianGo]
      rw [if_pos h]
    · simp only [quartileGo]
      rw [if_pos h]
    · rw [h]
      simp only [medianGo]
      rw [if_pos h]
      rfl
    · rw [h]
      simp only [quartileGo]
      rw [if_pos h]
      rfl
  · refine ⟨?_, ?_, ?_, ?_⟩
    · simp only [medianGo, allocSlice]
      rw [if_neg h]
      exact frame_read st hi _ _ _
    · simp only [quartileGo, allocSlice]
      rw [if_neg h]
      exact frame_read st hi _ _ _
    · simp only [medianGo, allocSlice]
      rw [if_neg h, alloc_read st hi, copy_read, sort_read]
      simp only [Median]
      rw [if_neg h]
    · simp only [quartileGo, allocSlice]
      rw [if_neg h, alloc_read st hi, copy_read, sort_read]
      simp only [Quartile]
      rw [if_neg h]

/-- Witness for C9 at a concrete heap: one allocated slice `[3, 1, 2]`. -/
theorem median_quartile_preserve_caller_witness :
    readSlice (medianGo [[(3 : ℚ), 1, 2]] 0).2 0 = readSlice [[(3 : ℚ), 1, 2]] 0 ∧
    readSlice (quartileGo [[(3 : ℚ), 1, 2]] 0 0).2 0 = readSlice [[(3 : ℚ), 1, 2]] 0 ∧
    (medianGo [[(3 : ℚ), 1, 2]] 0).1 = Median (readSlice [[(3 : ℚ), 1, 2]] 0) ∧
    (quartileGo [[(3 : ℚ), 1, 2]] 0 0).1 = Quartile (readSlice [[(3 : ℚ), 1, 2]] 0) 0 :=
  median_quartile_preserve_caller [[(3 : ℚ), 1, 2]] 0 0 (by decide)


theorem splitChar_no_sep (sep : Char) :
    ∀ s : List Char, (∀ c ∈ s, c ≠ sep) → splitChar sep s = [s]
  | [], _ => rfl
  | c :: s, h => by
    have hs : splitChar sep s = [s] :=
      splitChar_no_sep sep s fun x hx => h x (List.mem_cons_of_mem c hx)
    simp only [splitChar, hs]
    rw [if_neg (h c (List.mem_cons_self c s))]

/-- C5: the Server-Timing value is split on semicolons, the trimmed second
field is checked for a `dur=` head and the remainder parsed as a float
(`"cf-edge; dur=12.5"` gives 12.5 ms); an absent header, a value without a
semicolon, or a parse failure after `dur=` all leave the result at 0. -/
theorem server_timing_header_parse :
    serverTimingOfHeader (String.toList "cf-edge; dur=12.5") = 25 / 2 ∧
    serverTimingOfHeader [] = 0 ∧
    (∀ s : List Char, (∀ c ∈ s, c ≠ ';') → serverTimingOfHeader s = 0) ∧
    (∀ s rest : List Char,
      trimSpace ((splitChar ';' s).getD 1 []) = 'd' :: 'u' :: 'r' :: '=' :: rest →
      parseGoFloat rest = none → serverTimingOfHeader s = 0) ∧
    serverTimingOfHeader (String.toList "dur=abc") = 0 := by
  have hno : ∀ s : List Char, (∀ c ∈ s, c ≠ ';') → serverTimingOfHeader s = 0 := by
    intro s hnos
    by_cases hemp : s = []
    · rw [hemp]
      rfl
    · simp only [serverTimingOfHeader]
      rw [if_neg hemp, splitChar_no_sep ';' s hnos]
      rfl
  refine ⟨?_, rfl, hno, ?_, hno _ (by decide)⟩
  · have key : serverTimingOfHeader (String.toList "cf-edge; dur=12.5")
        = (parseGoFloat ['1', '2', '.', '5']).getD 0 := rfl
    have key2 : parseGoFloat ['1', '2', '.', '5']
        = some ((1 : ℚ) * ((natOfDigits ['1', '2'] : ℚ)
            + (natOfDigits ['5'] : ℚ) / (10 : ℚ) ^ (['5'] : List Char).length)) := rfl
    rw [key, key2, Option.getD_some,
      show natOfDigits ['1', '2'] = 12 from rfl, show natOfDigits ['5'] = 5 from rfl,
      show (['5'] : List Char).length = 1 from rfl]
    norm_num
  · intro s rest htrim hparse
    by_cases hemp : s = []
    · rw [hemp]
      rfl
    · simp only [serverTimingOfHeader]
      rw [if_neg hemp]
      by_cases hlen : 1 < (splitChar ';' s).length
      · rw [if_pos hlen, htrim]
        show (parseGoFloat rest).getD 0 = 0
        rw [hparse]
        rfl
      · rw [if_neg hlen]

/-- Witness for C5's conditional conjuncts: a header value without any
semicolon, and one whose `dur=` remainder fails to parse as a float. -/
theorem server_timing_header_parse_witness :
    serverTimingOfHeader ['x'] = 0 ∧
    serverTimingOfHeader ['a', ';', ' ', 'd', 'u', 'r', '=', 'z'] = 0 :=
  ⟨server_timing_header_parse.2.2.1 ['x'] (by decide),
   server_timing_header_parse.2.2.2.1 ['a', ';', ' ', 'd', 'u', 'r', '=', 'z'] ['z']
     (by decide) (by decide)⟩

/-! ## The trace-payload mapping -/

theorem lineKV_eq_some {line : List Char} {p : List Char × List Char}
    (h : lineKV line = some p) : splitChar '=' line = [p.1, p.2] := by
  unfold lineKV at h
  rcases hsp : splitChar '=' line with _ | ⟨a, _ | ⟨b, _ | ⟨c, t⟩⟩⟩ <;> rw [hsp] at h
  · simp at h
  · simp at h
  · have hp : (a, b) = p := by simpa using h
    rw [← hp]
  · simp at h

theorem eq_nil_of_getLast?_none {α : Type _} :
    ∀ {l : List α}, l.getLast? = none → l = []
  | [], _ => rfl
  | [a], h => by simp at h
  | a :: b :: t, h => by
    rw [List.getLast?_cons_cons] at h
    exact absurd (eq_nil_of_getLast?_none h) (by simp)

theorem mem_of_getLast?_some {α : Type _} :
    ∀ {l : List α} {p : α}, l.getLast? = some p → p ∈ l
  | [], p, h => by simp at h
  | [a], p, h => by
    simp at h
    simp [h]
  | a :: b :: t, p, h => by
    rw [List.getLast?_cons_cons] at h
    exact List.mem_cons_of_mem a (mem_of_getLast?_some h)

theorem getLast?_cons_of_getLast? {α : Type _} (a : α) {l : List α} {p : α}
    (h : l.getLast? = some p) : (a :: l).getLast? = some p := by
  cases l with
  | nil => simp at h
  | cons b t =>
    rw [List.getLast?_cons_cons]
    exact h

/-- The line-by-line parsing loop, recast as a fold of `mapInsert` over the
well-formed key/value lines. -/
theorem fetchTrace_foldl_entries (lines : List (List Char)) :
    ∀ m : List Char → Option (List Char),
      lines.foldl
        (fun result line =>
          match splitChar '=' line with
          | [k, v] => fun key => if key = k then some v else result key
          | _ => result) m
      = (lines.filterMap lineKV).foldl mapInsert m := by
  induction lines with
  | nil => intro m; rfl
  | cons line rest ih =>
    intro m
    rw [List.foldl_cons, List.filterMap_cons]
    rcases hsp : splitChar '=' line with _ | ⟨a, _ | ⟨b, _ | ⟨c, t⟩⟩⟩ <;>
      simp only [lineKV, hsp] <;>
      try exact ih m
    rw [List.foldl_cons]
    exact ih (mapInsert m (a, b))

/-- Looking up a key after folding `mapInsert` returns the value of the
last inserted entry with that key. -/
theorem foldl_mapInsert_lookup (k : List Char) :
    ∀ (entries : List (List Char × List Char)) (m : List Char → Option (List Char)),
      entries.foldl mapInsert m k
        = match (entries.filter fun p => p.1 = k).getLast? with
          | some p => some p.2
          | none => m k
  | [], m => rfl
  | e :: rest, m => by
    rw [List.foldl_cons, foldl_mapInsert_lookup k rest (mapInsert m e)]
    by_cases he : e.1 = k
    · rw [List.filter_cons_of_pos (by simpa using he)]
      cases hl : (rest.filter fun p => p.1 = k).getLast? with
      | some p => rw [getLast?_cons_of_getLast? e hl]
      | none =>
        rw [eq_nil_of_getLast?_none hl]
        simp [mapInsert, he.symm]
    · rw [List.filter_cons_of_neg (by simpa using he)]
      cases hl : (rest.filter fun p => p.1 = k).getLast? with
      | some p => rfl
      | none =>
        show mapInsert m e k = m k
        simp only [mapInsert]
        rw [if_neg (fun hc : k = e.1 => he hc.symm)]

/-- C10 (amended): in the mapping parsed from the trace payload each key
maps to the value of the *last* line of the form `key=value` with that key
(later lines overwrite earlier ones); every line not of that form is
ignored, and a key is present in the mapping iff some line splits on `=`
into exactly that key and a value. -/
theorem trace_mapping_last_write_wins (data : List Char) (k : List Char) :
    (fetchCfCdnCgiTrace data k
      = match (((splitChar '\n' data).filterMap lineKV).filter
            fun p => p.1 = k).getLast? with
        | some p => some p.2
        | none => none) ∧
    ((fetchCfCdnCgiTrace data k).isSome
      ↔ ∃ line ∈ splitChar '\n' data, ∃ v, splitChar '=' line = [k, v]) := by
  have h1 : fetchCfCdnCgiTrace data k
      = match (((splitChar '\n' data).filterMap lineKV).filter
            fun p => p.1 = k).getLast? with
        | some p => some p.2
        | none => none := by
    simp only [fetchCfCdnCgiTrace]
    rw [fetchTrace_foldl_entries, foldl_mapInsert_lookup]
  refine ⟨h1, ?_⟩
  rw [h1]
  constructor
  · intro hs
    cases hl : (((splitChar '\n' data).filterMap lineKV).filter
        fun p => p.1 = k).getLast? with
    | none => rw [hl] at hs; simp at hs
    | some p =>
      have hpmem := mem_of_getLast?_some hl
      have hpk : p.1 = k := by simpa using List.of_mem_filter hpmem
      obtain ⟨line, hline, hkv⟩ := List.mem_filterMap.mp (List.mem_of_mem_filter hpmem)
      exact ⟨line, hline, p.2, by rw [lineKV_eq_some hkv, hpk]⟩
  · rintro ⟨line, hline, v, hsp⟩
    cases hl : (((splitChar '\n' data).filterMap lineKV).filter
        fun p => p.1 = k).getLast? with
    | some p => rfl
    | none =>
      exfalso
      have hmem : (k, v) ∈ ((splitChar '\n' data).filterMap lineKV).filter
          fun p => p.1 = k := by
        refine List.mem_filter.mpr ⟨List.mem_filterMap.mpr ⟨line, hline, ?_⟩, by simp⟩
        simp [lineKV, hsp]
      rw [eq_nil_of_getLast?_none hl] at hmem
      simp at hmem

/-- C10 counterexample: in the payload `"a=1\na=2"` the line `"a=1"` is of
the form `key=value`, yet the resulting mapping does not send `a` to `1` —
the later line overwrote it with `2`. -/
theorem trace_line_overwritten_counterexample :
    ('a' :: '=' :: '1' :: []) ∈ splitChar '\n' (String.toList "a=1\na=2") ∧
    splitChar '=' ('a' :: '=' :: '1' :: []) = [['a'], ['1']] ∧
    fetchCfCdnCgiTrace (String.toList "a=1\na=2") ['a'] = some ['2'] ∧
    fetchCfCdnCgiTrace (String.toList "a=1\na=2") ['a'] ≠ some ['1'] :=
  ⟨by decide, by decide, by decide, by decide⟩

end CloudflareSpeed
